import Mathlib

/-!
Shallow embedding of the `toDoList-TS` repository's core: the `TodoList`
class (CRUD operations, validation, sanitization, filtering, import/export)
together with its persistence behaviour (`StorageUtils.saveTodos` callers).

Modelling conventions:
* JS strings are Lean `String`s; character-level work is done on `List Char`.
* `Date` values are modelled by `JsDate`: either a valid instant in epoch
  milliseconds, or the Invalid Date (NaN time value) that `new Date` yields
  on an unparseable string.  Every public operation receives the current
  time `now : Nat` as a parameter; the several `new Date()` calls inside one
  (atomic, single-threaded) operation all observe that same (valid) instant.
* `generateId()` (clock + `Math.random()`) is nondeterministic; operations
  receive the freshly generated id as a parameter.
* Persistence (`localStorage`) is part of the state (`stored`), and whether a
  given write succeeds is an environment parameter `ok : Bool`; `saveCalls`
  counts how many times a record write was attempted.
* Exceptions are modelled with `Except`: each operation returns its result
  (or error) together with the post-state, because the source mutates
  `this.todos` before the persistence call that can throw.
-/

/-- Whitespace per ECMAScript `\s` (WhiteSpace ∪ LineTerminator), used by
`String.prototype.trim` and the `/\s+/g` regex in `sanitizeTodoText`. -/
def jsIsSpace (c : Char) : Bool :=
  let n := c.toNat
  n = 9 || n = 10 || n = 11 || n = 12 || n = 13 || n = 32 || n = 160 ||
  n = 0x1680 || (0x2000 ≤ n && n ≤ 0x200A) || n = 0x2028 || n = 0x2029 ||
  n = 0x202F || n = 0x205F || n = 0x3000 || n = 0xFEFF

/-- The space character written by the sanitizer. -/
def spaceChar : Char := Char.ofNat 32

/-- Drop trailing whitespace (the `trimEnd` half of `String.prototype.trim`). -/
def dropTrailingWS (l : List Char) : List Char :=
  (l.reverse.dropWhile jsIsSpace).reverse

/-- Character-level model of `String.prototype.trim`. -/
def trimList (l : List Char) : List Char :=
  dropTrailingWS (l.dropWhile jsIsSpace)

/-- Model of `text.trim()` on strings. -/
def jsTrim (s : String) : String := ⟨trimList s.data⟩

/-- Model of `replace(/\s+/g, ' ')`: every maximal whitespace run becomes one
space.  The boolean argument records whether we are inside a run whose single
replacement space has already been emitted. -/
def collapseRuns : Bool → List Char → List Char
  | _, [] => []
  | inRun, c :: cs =>
    if jsIsSpace c then
      if inRun then collapseRuns true cs else spaceChar :: collapseRuns true cs
    else c :: collapseRuns false cs

/-- `TodoList.sanitizeTodoText`: `text.trim().replace(/\s+/g, ' ')`. -/
def sanitizeTodoText (s : String) : String :=
  ⟨collapseRuns false (trimList s.data)⟩

/-- Error kinds of the application: `ValidationError`, `StorageError`, and
the generic `Error(...)` wrappers thrown by the `catch` blocks. -/
inductive TLError where
  | validation (msg : String)
  | storage (msg : String)
  | generic (msg : String)
deriving DecidableEq

/-- Message carried by an error (`error.message`). -/
def TLError.message : TLError → String
  | .validation m => m
  | .storage m => m
  | .generic m => m

/-- A JS `Date` value: a valid instant (epoch milliseconds) or the Invalid
Date, whose time value is NaN.  `new Date()` always yields a valid instant;
`new Date(<unparseable string>)` yields the Invalid Date. -/
inductive JsDate where
  | valid (ms : Nat)
  | invalid
deriving DecidableEq

/-- JS `<=` on `Date` time values: a numeric comparison, false whenever
either side is the Invalid Date (NaN comparisons are false). -/
def JsDate.le : JsDate → JsDate → Prop
  | .valid a, .valid b => a ≤ b
  | _, _ => False

instance (a b : JsDate) : Decidable (a.le b) := by
  cases a <;> cases b <;> simp only [JsDate.le] <;> infer_instance

/-- A task record (`Todo` interface). -/
structure Todo where
  id : String
  text : String
  completed : Bool
  createdAt : JsDate
  updatedAt : JsDate
deriving DecidableEq

/-- `TodoFilter = 'all' | 'completed' | 'pending'`. -/
inductive TodoFilter where
  | all
  | completed
  | pending
deriving DecidableEq

/-- The `TodoList` instance state plus the `localStorage` contents it writes.
`stored`/`storedFilter` mirror the persisted entries; `saveCalls` counts the
`StorageUtils.saveTodos` write attempts. -/
structure AppState where
  todos : List Todo
  currentFilter : TodoFilter
  stored : List Todo
  storedFilter : TodoFilter
  saveCalls : Nat
deriving DecidableEq

/-- Fresh `TodoList` with empty storage (`loadFromStorage` found nothing). -/
def initState : AppState :=
  { todos := [], currentFilter := .all, stored := [], storedFilter := .all,
    saveCalls := 0 }

/-- `TodoList.validateTodoText`: empty, whitespace-only, or over-200-chars
(after trim) text is a `ValidationError`. -/
def validateTodoText (text : String) : Except TLError Unit :=
  if text = "" then .error (.validation "Todo text is required")
  else if (jsTrim text).length = 0 then
    .error (.validation "Todo text cannot be empty")
  else if 200 < (jsTrim text).length then
    .error (.validation "Todo text cannot exceed 200 characters")
  else .ok ()

/-- `TodoList.validateId`: empty or whitespace-only id is a
`ValidationError`. -/
def validateId (id : String) : Except TLError Unit :=
  if id = "" then .error (.validation "Todo ID is required")
  else if (jsTrim id).length = 0 then
    .error (.validation "Todo ID cannot be empty")
  else .ok ()

/-- Message of the `StorageError` produced by `saveToStorage` when the
underlying `StorageUtils.saveTodos` write fails. -/
def saveFailMsg : String :=
  "Failed to save todos to storage: Failed to save todos to localStorage"

/-- The shared tail of every mutating operation: assign `this.todos`, call
`saveToStorage()`, and return the result.  When the write fails the
`StorageError` propagates to the operation's `catch`, which (as it is not a
`ValidationError`) wraps it into a generic `Error` prefixed with `wrap`; the
in-memory assignment is not rolled back. -/
def commit {α : Type} (wrap : String) (r : α) (todos' : List Todo)
    (ok : Bool) (st : AppState) : Except TLError α × AppState :=
  let st' := { st with todos := todos', saveCalls := st.saveCalls + 1 }
  if ok then (.ok r, { st' with stored := todos' })
  else (.error (.generic (wrap ++ saveFailMsg)), st')

/-- `TodoList.addTodo`.  `now` is the current time, `freshId` the value
produced by `generateId()`, `ok` whether the storage write succeeds. -/
def addTodo (now : Nat) (freshId : String) (ok : Bool) (text : String)
    (st : AppState) : Except TLError Todo × AppState :=
  match validateTodoText text with
  | .error e => (.error e, st)
  | .ok _ =>
    let newTodo : Todo :=
      { id := freshId, text := sanitizeTodoText text, completed := false,
        createdAt := .valid now, updatedAt := .valid now }
    commit "Failed to add todo: " newTodo (st.todos ++ [newTodo]) ok st

/-- The `Partial<Pick<Todo, 'text' | 'completed'>>` update payload. -/
structure TodoUpdate where
  text? : Option String
  completed? : Option Bool
deriving DecidableEq

/-- `TodoList.updateTodo`.  Looks the record up by id, validates a supplied
text (a supplied `completed` is a boolean by typing, so
`validateCompletedStatus` always passes), rebuilds the record with
`updatedAt = now`, stores it back and persists. -/
def updateTodo (now : Nat) (ok : Bool) (id : String) (upd : TodoUpdate)
    (st : AppState) : Except TLError (Option Todo) × AppState :=
  match validateId id with
  | .error e => (.error e, st)
  | .ok _ =>
    match st.todos.findIdx? (fun t => t.id == id) with
    | none => (.ok none, st)
    | some i =>
      match st.todos.get? i with
      | none => (.ok none, st)
      | some todo =>
        match (match upd.text? with
               | some tx => validateTodoText tx
               | none => .ok ()) with
        | .error e => (.error e, st)
        | .ok _ =>
          let newText := match upd.text? with
            | some tx => sanitizeTodoText tx
            | none => todo.text
          let updated : Todo :=
            { id := todo.id, text := newText,
              completed := upd.completed?.getD todo.completed,
              createdAt := todo.createdAt, updatedAt := .valid now }
          commit "Failed to update todo: " (some updated)
            (st.todos.set i updated) ok st

/-- `TodoList.toggleTodo`: validate the id, fetch via `getTodoById`, then
delegate to `updateTodo` with the negated flag.  A non-validation error coming
back from `updateTodo` is wrapped once more by this operation's `catch`. -/
def toggleTodo (now : Nat) (ok : Bool) (id : String) (st : AppState) :
    Except TLError (Option Todo) × AppState :=
  match validateId id with
  | .error e => (.error e, st)
  | .ok _ =>
    match st.todos.find? (fun t => t.id == id) with
    | none => (.ok none, st)
    | some todo =>
      match updateTodo now ok id ⟨none, some (!todo.completed)⟩ st with
      | (.ok r, st') => (.ok r, st')
      | (.error (.validation m), st') => (.error (.validation m), st')
      | (.error e, st') =>
          (.error (.generic ("Failed to toggle todo: " ++ e.message)), st')

/-- `TodoList.deleteTodo`: `splice(i, 1)` is `List.eraseIdx`. -/
def deleteTodo (ok : Bool) (id : String) (st : AppState) :
    Except TLError Bool × AppState :=
  match validateId id with
  | .error e => (.error e, st)
  | .ok _ =>
    match st.todos.findIdx? (fun t => t.id == id) with
    | none => (.ok false, st)
    | some i =>
      commit "Failed to delete todo: " true (st.todos.eraseIdx i) ok st

/-- `TodoList.deleteCompletedTodos`: keep the non-completed records and
return how many were dropped. -/
def deleteCompletedTodos (ok : Bool) (st : AppState) :
    Except TLError Nat × AppState :=
  let remaining := st.todos.filter (fun t => !t.completed)
  commit "Failed to delete completed todos: "
    (st.todos.length - remaining.length) remaining ok st

/-- `TodoList.clearAll`: empty the collection and persist. -/
def clearAll (ok : Bool) (st : AppState) : Except TLError Unit × AppState :=
  commit "Failed to clear all todos: " () [] ok st

/-- `TodoList.setFilter`: `validateFilter` always passes for a typed
`TodoFilter`; the preference is stored and persisted via
`saveFilterToStorage` (whose `StorageError` would be wrapped generically). -/
def setFilter (ok : Bool) (f : TodoFilter) (st : AppState) :
    Except TLError Unit × AppState :=
  let st' := { st with currentFilter := f }
  if ok then (.ok (), { st' with storedFilter := f })
  else
    (.error (.generic ("Failed to set filter: " ++
      "Failed to save filter to storage: Failed to save filter to localStorage")),
     st')

/-- `TodoList.getCurrentFilter`. -/
def getCurrentFilter (st : AppState) : TodoFilter := st.currentFilter

/-!
Import/export.  `JSON.stringify`/`JSON.parse` are runtime builtins, not
repository code; here JSON text is represented by its parse tree (`JVal`), so
the stringify/parse pair is the identity codec, which is exactly the platform
guarantee for well-formed data.  A valid `Date` serializes (via `toJSON`/`toISOString`) to a
string; any string that JS date-parses to a valid instant is represented by
the constructor `JVal.dateStr ms` carrying that instant (`new Date` on it
restores the exact millisecond value), while `JVal.str` holds every other
string, on which `new Date` yields the Invalid Date.  The Invalid Date
itself serializes to `null`: `Date.prototype.toJSON` returns `null` for a
non-finite time value.  No claim inspects the characters of a serialized
date.
-/

/-- A parsed JSON value (see module comment above for `dateStr`). -/
inductive JVal where
  | str (s : String)
  | dateStr (ms : Nat)
  | jbool (b : Bool)
  | jnum (n : Int)
  | jnull
  | arr (xs : List JVal)
  | obj (fields : List (String × JVal))

/-- JS property access on a parsed object (literal keys are unique here). -/
def jLookup : List (String × JVal) → String → Option JVal
  | [], _ => none
  | (k, v) :: rest, key => if k = key then some v else jLookup rest key

/-- `typeof x === 'string'` for a (possibly absent) property. -/
def jIsString : Option JVal → Bool
  | some (.str _) => true
  | some (.dateStr _) => true
  | _ => false

/-- `typeof x === 'boolean'` for a (possibly absent) property. -/
def jIsBool : Option JVal → Bool
  | some (.jbool _) => true
  | _ => false

/-- Read a string property (only ever used after `jIsString` holds; the
`dateStr` branch is never exercised by any claim). -/
def jAsString : Option JVal → String
  | some (.str s) => s
  | _ => ""

/-- Read a boolean property (only ever used after `jIsBool` holds). -/
def jAsBool : Option JVal → Bool
  | some (.jbool b) => b
  | _ => false

/-- `new Date(v)` for a property that passed the string check: a date
string (`dateStr`) restores its exact instant; any other string yields the
Invalid Date. -/
def jNewDate : Option JVal → JsDate
  | some (.dateStr ms) => .valid ms
  | _ => .invalid

/-- `TodoList.isValidTodo`: an object whose five fields have the right
types.  Non-objects (and arrays/null, whose property reads fail the type
checks) are invalid. -/
def isValidTodo : JVal → Bool
  | .obj fs =>
    jIsString (jLookup fs "id") && jIsString (jLookup fs "text") &&
    jIsBool (jLookup fs "completed") && jIsString (jLookup fs "createdAt") &&
    jIsString (jLookup fs "updatedAt")
  | _ => false

/-- The record object pushed by `importTodos` for a valid entry:
`{...todo, createdAt: new Date(todo.createdAt), updatedAt: new Date(todo.updatedAt)}`. -/
def decodeTodo : JVal → Todo
  | .obj fs =>
    { id := jAsString (jLookup fs "id"), text := jAsString (jLookup fs "text"),
      completed := jAsBool (jLookup fs "completed"),
      createdAt := jNewDate (jLookup fs "createdAt"),
      updatedAt := jNewDate (jLookup fs "updatedAt") }
  | _ => { id := "", text := "", completed := false, createdAt := .invalid,
           updatedAt := .invalid }

/-- `JSON.stringify`'s value for a `Date` property, via
`Date.prototype.toJSON`: a valid date yields its ISO string, the Invalid
Date yields `null`. -/
def JsDate.toJson : JsDate → JVal
  | .valid ms => .dateStr ms
  | .invalid => .jnull

/-- `JSON.stringify`'s view of one in-memory record: the five own properties
in insertion order, dates via `toJSON`. -/
def encodeTodo (t : Todo) : JVal :=
  .obj [("id", .str t.id), ("text", .str t.text),
        ("completed", .jbool t.completed),
        ("createdAt", t.createdAt.toJson), ("updatedAt", t.updatedAt.toJson)]

/-- `TodoList.exportTodos`: `JSON.stringify(this.todos, null, 2)`, as its
parse tree. -/
def exportTodos (st : AppState) : JVal := .arr (st.todos.map encodeTodo)

/-- `TodoList.importTodos`: a non-array parse is a hard (generic) failure;
otherwise entries failing `isValidTodo` are dropped, the valid ones replace
the whole collection, the result is persisted and their count returned. -/
def importTodos (ok : Bool) (j : JVal) (st : AppState) :
    Except TLError Nat × AppState :=
  match j with
  | .arr items =>
    let valid := (items.filter isValidTodo).map decodeTodo
    commit "Failed to import todos: " valid.length valid ok st
  | _ =>
    (.error (.generic "Failed to import todos: Invalid data format: expected an array of todos"),
     st)

/-- One caller-visible mutating invocation, with the environment values
(`now`, the generated id) baked in. -/
inductive Op where
  | add (now : Nat) (freshId : String) (text : String)
  | update (now : Nat) (id : String) (upd : TodoUpdate)
  | toggle (now : Nat) (id : String)
  | delete (id : String)
  | deleteCompleted
  | clearAllOp
  | importT (j : JVal)
  | setFilterOp (f : TodoFilter)

/-- The heterogeneous result of an operation. -/
inductive Payload where
  | todoP (t : Todo)
  | optP (o : Option Todo)
  | boolP (b : Bool)
  | natP (n : Nat)
  | unitP
deriving DecidableEq

/-- Run one operation (`ok` = does the storage write succeed). -/
def applyOp (o : Op) (ok : Bool) (st : AppState) :
    Except TLError Payload × AppState :=
  match o with
  | .add now id text =>
    let r := addTodo now id ok text st; (r.1.map .todoP, r.2)
  | .update now id upd =>
    let r := updateTodo now ok id upd st; (r.1.map .optP, r.2)
  | .toggle now id =>
    let r := toggleTodo now ok id st; (r.1.map .optP, r.2)
  | .delete id =>
    let r := deleteTodo ok id st; (r.1.map .boolP, r.2)
  | .deleteCompleted =>
    let r := deleteCompletedTodos ok st; (r.1.map .natP, r.2)
  | .clearAllOp =>
    let r := clearAll ok st; (r.1.map (fun _ => .unitP), r.2)
  | .importT j =>
    let r := importTodos ok j st; (r.1.map .natP, r.2)
  | .setFilterOp f =>
    let r := setFilter ok f st; (r.1.map (fun _ => .unitP), r.2)

/-- States reachable from a fresh instance by any sequence of operations
(any environment values, including storage failures and `importTodos`). -/
inductive Reach : AppState → Prop
  | init : Reach initState
  | step (st : AppState) (o : Op) (ok : Bool) (hr : Reach st) :
      Reach (applyOp o ok st).2

/-- Environment sanity for one step, as the specification presumes it:
`generateId()` returns an id not already live, and the wall clock never runs
backwards past an existing record's creation time.  `importTodos` is
excluded. -/
def envOK (st : AppState) : Op → Prop
  | .add _ id _ => ∀ t ∈ st.todos, t.id ≠ id
  | .update now _ _ => ∀ t ∈ st.todos, JsDate.le t.createdAt (.valid now)
  | .toggle now _ => ∀ t ∈ st.todos, JsDate.le t.createdAt (.valid now)
  | .importT _ => False
  | _ => True

/-- States reachable without `importTodos`, under a sane environment. -/
inductive ReachM : AppState → Prop
  | init : ReachM initState
  | step (st : AppState) (o : Op) (ok : Bool) (h : envOK st o)
      (hr : ReachM st) : ReachM (applyOp o ok st).2

/-- The text constraint of the data model, on raw characters: non-empty and
at most 200 characters after trimming. -/
def TextOkL (l : List Char) : Prop :=
  trimList l ≠ [] ∧ (trimList l).length ≤ 200

instance (l : List Char) : Decidable (TextOkL l) := by
  unfold TextOkL; infer_instance

/-- The text constraint on strings. -/
def TextOk (s : String) : Prop := TextOkL s.data

instance (s : String) : Decidable (TextOk s) := by
  unfold TextOk; infer_instance

/-- The spec's collection invariants, on a list of records. -/
def InvTodos (l : List Todo) : Prop :=
  (l.map Todo.id).Nodup ∧
  ∀ t ∈ l, TextOk t.text ∧ JsDate.le t.createdAt t.updatedAt

instance (l : List Todo) : Decidable (InvTodos l) := by
  unfold InvTodos; infer_instance

/-- The spec's collection invariants, on a state. -/
def StateInv (st : AppState) : Prop := InvTodos st.todos

instance (st : AppState) : Decidable (StateInv st) := by
  unfold StateInv; infer_instance

/-! Helper lemmas about trimming and whitespace collapsing. -/

/-- Dropping a prefix can only shorten a list. -/
lemma dropWhile_length_le {α : Type} (p : α → Bool) (l : List α) :
    (l.dropWhile p).length ≤ l.length := by
  induction l with
  | nil => simp
  | cons c cs ih =>
    rw [List.dropWhile_cons]
    by_cases h : p c
    · simp only [h, if_true]
      exact le_trans ih (Nat.le_succ _)
    · simp [h]

/-- An element on which the predicate fails survives `dropWhile`. -/
lemma mem_dropWhile_of_mem {α : Type} {p : α → Bool} {c : α} {l : List α}
    (h : c ∈ l) (hc : p c = false) : c ∈ l.dropWhile p := by
  induction l with
  | nil => simp at h
  | cons a as ih =>
    rw [List.dropWhile_cons]
    by_cases ha : p a
    · rcases List.mem_cons.mp h with rfl | hm
      · rw [hc] at ha; exact absurd ha (by simp)
      · simp only [ha, if_true]
        exact ih hm
    · simp [ha, h]

/-- The first survivor of `dropWhile` fails the predicate. -/
lemma head_dropWhile_false {α : Type} {p : α → Bool} {c : α} {cs l : List α}
    (h : l.dropWhile p = c :: cs) : p c = false := by
  induction l with
  | nil => simp at h
  | cons a as ih =>
    rw [List.dropWhile_cons] at h
    by_cases ha : p a
    · rw [if_pos ha] at h; exact ih h
    · rw [if_neg ha] at h
      obtain ⟨rfl, -⟩ : a = c ∧ as = cs := by
        exact ⟨(List.cons.injEq _ _ _ _ ▸ h).1, (List.cons.injEq _ _ _ _ ▸ h).2⟩
      exact Bool.eq_false_iff.mpr ha

/-- A non-whitespace member keeps the trimmed list non-empty. -/
lemma trimList_ne_nil_of_mem {c : Char} {l : List Char}
    (h : c ∈ l) (hc : jsIsSpace c = false) : trimList l ≠ [] := by
  have h1 : c ∈ l.dropWhile jsIsSpace := mem_dropWhile_of_mem h hc
  have h2 : c ∈ (l.dropWhile jsIsSpace).reverse.dropWhile jsIsSpace :=
    mem_dropWhile_of_mem (List.mem_reverse.mpr h1) hc
  have h3 : c ∈ trimList l := by
    unfold trimList dropTrailingWS
    exact List.mem_reverse.mpr h2
  intro hnil
  rw [hnil] at h3
  simp at h3

/-- Trimming can only shorten a list. -/
lemma trimList_length_le (l : List Char) : (trimList l).length ≤ l.length := by
  unfold trimList dropTrailingWS
  calc ((l.dropWhile jsIsSpace).reverse.dropWhile jsIsSpace).reverse.length
      = ((l.dropWhile jsIsSpace).reverse.dropWhile jsIsSpace).length := by
        rw [List.length_reverse]
    _ ≤ (l.dropWhile jsIsSpace).reverse.length := dropWhile_length_le _ _
    _ = (l.dropWhile jsIsSpace).length := by rw [List.length_reverse]
    _ ≤ l.length := dropWhile_length_le _ _

/-- The trimmed list is a prefix of the front-trimmed list. -/
lemma trimList_prefix (l : List Char) :
    trimList l <+: l.dropWhile jsIsSpace := by
  unfold trimList dropTrailingWS
  obtain ⟨t, ht⟩ :=
    @List.dropWhile_suffix Char ((l.dropWhile jsIsSpace).reverse) jsIsSpace
  refine ⟨t.reverse, ?_⟩
  have := congrArg List.reverse ht
  rw [List.reverse_append, List.reverse_reverse] at this
  exact this

/-- A non-empty trimmed list starts with a non-whitespace character. -/
lemma trimList_head_not_space {c : Char} {cs l : List Char}
    (h : trimList l = c :: cs) : jsIsSpace c = false := by
  obtain ⟨u, hu⟩ := trimList_prefix l
  rw [h] at hu
  exact head_dropWhile_false (l := l) hu.symm

/-- Collapsing whitespace runs can only shorten a list. -/
lemma collapseRuns_length_le (l : List Char) :
    ∀ b, (collapseRuns b l).length ≤ l.length := by
  induction l with
  | nil => intro b; simp [collapseRuns]
  | cons c cs ih =>
    intro b
    by_cases h : jsIsSpace c
    · cases b <;> simp only [collapseRuns, h, if_true] <;>
        [skip; exact le_trans (ih true) (Nat.le_succ _)]
      · simp only [List.length_cons]
        exact Nat.succ_le_succ (ih true)
    · simp only [collapseRuns, h, if_false, List.length_cons]
      exact Nat.succ_le_succ (ih false)

/-- Collapsing keeps a leading non-whitespace character in place. -/
lemma collapseRuns_cons_not_space {c : Char} {cs : List Char} {b : Bool}
    (hc : jsIsSpace c = false) :
    collapseRuns b (c :: cs) = c :: collapseRuns false cs := by
  simp [collapseRuns, hc]

/-- Sanitizing a text that is valid (non-empty, at most 200 characters after
trimming) yields a text that is again valid. -/
lemma sanitize_TextOk {l : List Char} (h : TextOkL l) :
    TextOkL (collapseRuns false (trimList l)) := by
  obtain ⟨hne, hlen⟩ := h
  obtain ⟨c, cs, hcons⟩ : ∃ c cs, trimList l = c :: cs := by
    cases htl : trimList l with
    | nil => exact absurd htl hne
    | cons c cs => exact ⟨c, cs, rfl⟩
  have hc : jsIsSpace c = false := trimList_head_not_space hcons
  constructor
  · have hmem : c ∈ collapseRuns false (trimList l) := by
      rw [hcons, collapseRuns_cons_not_space hc]
      exact List.mem_cons_self _ _
    exact trimList_ne_nil_of_mem hmem hc
  · calc (trimList (collapseRuns false (trimList l))).length
        ≤ (collapseRuns false (trimList l)).length := trimList_length_le _
      _ ≤ (trimList l).length := collapseRuns_length_le _ _
      _ ≤ 200 := hlen

/-- The sanitized form of a valid text satisfies the data-model constraint. -/
lemma sanitize_TextOk' {s : String} (h : TextOkL s.data) :
    TextOk (sanitizeTodoText s) := by
  unfold TextOk sanitizeTodoText
  exact sanitize_TextOk h

/-- `validateTodoText` succeeds exactly on texts that satisfy the data-model
constraint. -/
lemma validateTodoText_ok_iff (s : String) :
    validateTodoText s = .ok () ↔ TextOkL s.data := by
  unfold validateTodoText TextOkL
  by_cases h1 : s = ""
  · subst h1
    simp [show trimList ([] : List Char) = [] from rfl]
  · rw [if_neg h1]
    have hlen : (jsTrim s).length = (trimList s.data).length := rfl
    by_cases h2 : (jsTrim s).length = 0
    · rw [if_pos h2]
      have : trimList s.data = [] := List.length_eq_zero.mp (hlen ▸ h2)
      simp [this]
    · rw [if_neg h2]
      have hne : trimList s.data ≠ [] := by
        intro hnil
        exact h2 (by rw [hlen, hnil]; rfl)
      by_cases h3 : 200 < (jsTrim s).length
      · rw [if_pos h3]
        rw [hlen] at h3
        simp [hne, Nat.not_le.mpr h3]
      · rw [if_neg h3]
        rw [hlen] at h3
        simp [hne, Nat.le_of_not_lt h3]

/-- `jsTrim` is empty exactly when the character-level trim is. -/
lemma jsTrim_eq_empty_iff (s : String) :
    jsTrim s = "" ↔ trimList s.data = [] := by
  rw [String.ext_iff]
  rfl

/-- `validateId` succeeds exactly on ids that are non-empty after trimming. -/
lemma validateId_ok_iff (s : String) :
    validateId s = .ok () ↔ jsTrim s ≠ "" := by
  unfold validateId
  simp only [ne_eq, jsTrim_eq_empty_iff]
  by_cases h1 : s = ""
  · subst h1
    simp [show trimList ([] : List Char) = [] from rfl]
  · rw [if_neg h1]
    have hlen : (jsTrim s).length = (trimList s.data).length := rfl
    by_cases h2 : (jsTrim s).length = 0
    · rw [if_pos h2]
      have : trimList s.data = [] := List.length_eq_zero.mp (hlen ▸ h2)
      simp [this]
    · rw [if_neg h2]
      have hne : trimList s.data ≠ [] := by
        intro hnil
        exact h2 (by rw [hlen, hnil]; rfl)
      simp [hne]

/-! Helper lemmas about lookup by id and in-place replacement. -/

/-- A successful `find?` yields the index `findIdx?` reports, the element at
that index, and replacing that index keeps it the first match. -/
lemma find?_findIdx?_set {α : Type} (p : α → Bool) :
    ∀ (l : List α) (t : α), l.find? p = some t →
      ∃ i, l.findIdx? p = some i ∧ l.get? i = some t ∧
        ∀ u : α, p u = true → (l.set i u).find? p = some u := by
  intro l
  induction l with
  | nil => intro t h; simp at h
  | cons c cs ih =>
    intro t h
    by_cases hc : p c
    · rw [List.find?_cons_of_pos _ hc] at h
      obtain rfl : c = t := by injection h
      refine ⟨0, ?_, ?_, ?_⟩
      · rw [List.findIdx?_cons, if_pos hc]
      · rw [List.get?_cons_zero]
      · intro u hu
        rw [List.set_cons_zero]
        exact List.find?_cons_of_pos _ hu
    · rw [List.find?_cons_of_neg _ hc] at h
      obtain ⟨i, h1, h2, h3⟩ := ih t h
      refine ⟨i + 1, ?_, ?_, ?_⟩
      · rw [List.findIdx?_cons, if_neg hc, List.findIdx?_succ, h1]
        rfl
      · rw [List.get?_cons_succ]
        exact h2
      · intro u hu
        rw [List.set_cons_succ]
        rw [List.find?_cons_of_neg _ hc]
        exact h3 u hu

/-- A successful `findIdx?` yields an element at that index satisfying the
predicate. -/
lemma findIdx?_get? {α : Type} (p : α → Bool) :
    ∀ (l : List α) (i : Nat), l.findIdx? p = some i →
      ∃ t, l.get? i = some t ∧ p t = true := by
  intro l
  induction l with
  | nil => intro i h; simp at h
  | cons c cs ih =>
    intro i h
    rw [List.findIdx?_cons] at h
    by_cases hc : p c
    · rw [if_pos hc] at h
      obtain rfl : 0 = i := by injection h
      exact ⟨c, List.get?_cons_zero, hc⟩
    · rw [if_neg hc, List.findIdx?_succ] at h
      cases hcs : cs.findIdx? p with
      | none => rw [hcs] at h; simp at h
      | some j =>
        rw [hcs] at h
        obtain rfl : j + 1 = i := by injection h
        obtain ⟨t, ht, hpt⟩ := ih j hcs
        exact ⟨t, by rw [List.get?_cons_succ]; exact ht, hpt⟩

/-- Replacing an element by one with the same id leaves the id sequence
unchanged. -/
lemma map_id_set_same :
    ∀ (l : List Todo) (k : Nat) (t u : Todo), l.get? k = some t →
      u.id = t.id → (l.set k u).map Todo.id = l.map Todo.id := by
  intro l
  induction l with
  | nil => intro k t u h; simp at h
  | cons c cs ih =>
    intro k t u h hid
    cases k with
    | zero =>
      obtain rfl : c = t := by injection h
      rw [List.set_cons_zero]
      simp [hid]
    | succ k =>
      rw [List.get?_cons_succ] at h
      rw [List.set_cons_succ]
      simp only [List.map_cons]
      rw [ih k t u h hid]

/-- Behaviour of `commit` on a successful write. -/
lemma commit_true {α : Type} (w : String) (r : α) (ts : List Todo)
    (st : AppState) :
    commit w r ts true st =
      (.ok r, { st with todos := ts, stored := ts,
                        saveCalls := st.saveCalls + 1 }) := rfl

/-- Behaviour of `commit` on a failed write: the generic wrapper error is
returned, the in-memory list is the new one, storage is untouched. -/
lemma commit_false {α : Type} (w : String) (r : α) (ts : List Todo)
    (st : AppState) :
    commit w r ts false st =
      (.error (.generic (w ++ saveFailMsg)),
       { st with todos := ts, saveCalls := st.saveCalls + 1 }) := rfl

/-- `commit` installs the new list in memory whether or not the write
succeeds. -/
lemma commit_todos {α : Type} (w : String) (r : α) (ts : List Todo)
    (ok : Bool) (st : AppState) : (commit w r ts ok st).2.todos = ts := by
  cases ok <;> rfl

/-! Preservation of the collection invariants. -/

/-- The invariants restrict to sublists (deletion, filtering). -/
lemma invTodos_sublist {l' l : List Todo} (hs : l'.Sublist l)
    (h : InvTodos l) : InvTodos l' := by
  obtain ⟨h1, h2⟩ := h
  exact ⟨(hs.map Todo.id).nodup h1, fun t ht => h2 t (hs.mem ht)⟩

/-- Appending a freshly-identified valid record preserves the invariants. -/
lemma invTodos_append {l : List Todo} {i tx : String} {now : Nat}
    (h : InvTodos l) (hfresh : ∀ t ∈ l, t.id ≠ i) (htext : TextOk tx) :
    InvTodos (l ++ [⟨i, tx, false, .valid now, .valid now⟩]) := by
  obtain ⟨h1, h2⟩ := h
  constructor
  · rw [List.map_append]
    rw [List.nodup_append]
    refine ⟨h1, List.nodup_singleton _, ?_⟩
    intro a ha hb
    simp only [List.map_cons, List.map_nil, List.mem_singleton] at hb
    obtain ⟨t, ht, rfl⟩ := List.mem_map.mp ha
    exact hfresh t ht hb
  · intro t ht
    rcases List.mem_append.mp ht with hm | hm
    · exact h2 t hm
    · simp only [List.mem_singleton] at hm
      subst hm
      exact ⟨htext, Nat.le_refl now⟩

/-- Replacing a record by a valid record with the same id preserves the
invariants. -/
lemma invTodos_set {l : List Todo} {k : Nat} {t u : Todo}
    (h : InvTodos l) (hget : l.get? k = some t) (hid : u.id = t.id)
    (htext : TextOk u.text) (hts : JsDate.le u.createdAt u.updatedAt) :
    InvTodos (l.set k u) := by
  obtain ⟨h1, h2⟩ := h
  constructor
  · rw [map_id_set_same l k t u hget hid]
    exact h1
  · intro v hv
    rcases List.mem_or_eq_of_mem_set hv with hm | rfl
    · exact h2 v hm
    · exact ⟨htext, hts⟩

/-- `addTodo` preserves the invariants when the generated id is fresh. -/
lemma addTodo_snd_inv {now : Nat} {freshId : String} {ok : Bool}
    {text : String} {st : AppState} (h : StateInv st)
    (hfresh : ∀ t ∈ st.todos, t.id ≠ freshId) :
    StateInv (addTodo now freshId ok text st).2 := by
  unfold StateInv addTodo
  split
  · exact h
  · next hv =>
    rw [commit_todos]
    exact invTodos_append h hfresh
      (sanitize_TextOk' ((validateTodoText_ok_iff text).mp hv))

/-- `updateTodo` preserves the invariants when the clock is past every
record's creation time. -/
lemma updateTodo_snd_inv {now : Nat} {ok : Bool} {id : String}
    {upd : TodoUpdate} {st : AppState} (h : StateInv st)
    (hclock : ∀ t ∈ st.todos, JsDate.le t.createdAt (.valid now)) :
    StateInv (updateTodo now ok id upd st).2 := by
  unfold StateInv updateTodo
  split
  · exact h
  · split
    · exact h
    · next i hidx =>
      split
      · exact h
      · next todo hget =>
        split
        · exact h
        · next hv =>
          rw [commit_todos]
          refine invTodos_set h hget rfl ?_ ?_
          · cases htx : upd.text? with
            | none =>
              simp only [htx]
              exact ((h.2 todo (List.get?_mem hget)).1)
            | some tx =>
              simp only [htx]
              rw [htx] at hv
              exact sanitize_TextOk' ((validateTodoText_ok_iff tx).mp hv)
          · exact hclock todo (List.get?_mem hget)

/-- `toggleTodo` preserves the invariants under the same clock condition. -/
lemma toggleTodo_snd_inv {now : Nat} {ok : Bool} {id : String}
    {st : AppState} (h : StateInv st)
    (hclock : ∀ t ∈ st.todos, JsDate.le t.createdAt (.valid now)) :
    StateInv (toggleTodo now ok id st).2 := by
  unfold toggleTodo
  split
  · exact h
  · split
    · exact h
    · next todo hfind =>
      rcases hres : updateTodo now ok id ⟨none, some (!todo.completed)⟩ st
        with ⟨r, st2⟩
      have h2 : StateInv st2 := by
        have hu := @updateTodo_snd_inv now ok id
          ⟨none, some (!todo.completed)⟩ st h hclock
        rw [hres] at hu
        exact hu
      cases r with
      | ok v => exact h2
      | error e =>
        cases e with
        | validation m => exact h2
        | storage m => exact h2
        | generic m => exact h2

/-- `deleteTodo` preserves the invariants. -/
lemma deleteTodo_snd_inv {ok : Bool} {id : String} {st : AppState}
    (h : StateInv st) : StateInv (deleteTodo ok id st).2 := by
  unfold StateInv deleteTodo
  split
  · exact h
  · split
    · exact h
    · next i _ =>
      rw [commit_todos]
      exact invTodos_sublist (List.eraseIdx_sublist st.todos i) h

/-- `deleteCompletedTodos` preserves the invariants. -/
lemma deleteCompletedTodos_snd_inv {ok : Bool} {st : AppState}
    (h : StateInv st) : StateInv (deleteCompletedTodos ok st).2 := by
  unfold StateInv deleteCompletedTodos
  rw [commit_todos]
  exact invTodos_sublist (List.filter_sublist st.todos) h

/-- `clearAll` preserves the invariants. -/
lemma clearAll_snd_inv {ok : Bool} {st : AppState} :
    StateInv (clearAll ok st).2 := by
  unfold StateInv clearAll
  rw [commit_todos]
  exact ⟨List.nodup_nil, by intro t ht; simp at ht⟩

/-- `setFilter` does not touch the collection. -/
lemma setFilter_snd_inv {ok : Bool} {f : TodoFilter} {st : AppState}
    (h : StateInv st) : StateInv (setFilter ok f st).2 := by
  unfold StateInv setFilter
  cases ok <;> exact h

/-! Arithmetic of `deleteCompletedTodos`. -/

/-- The count returned by `deleteCompletedTodos` equals the number of
completed records. -/
lemma length_sub_filter_not (l : List Todo) :
    l.length - (l.filter (fun t => !t.completed)).length =
      l.countP (fun t => t.completed) := by
  induction l with
  | nil => rfl
  | cons c cs ih =>
    by_cases hc : c.completed
    · have hfil : (c :: cs).filter (fun t => !t.completed) =
          cs.filter (fun t => !t.completed) := by
        simp [List.filter_cons, hc]
      have hcnt : (c :: cs).countP (fun t => t.completed) =
          cs.countP (fun t => t.completed) + 1 := by
        simp [List.countP_cons, hc]
      have hle := List.length_filter_le (fun t => !t.completed) cs
      rw [hfil, hcnt, List.length_cons]
      omega
    · have hfil : (c :: cs).filter (fun t => !t.completed) =
          c :: cs.filter (fun t => !t.completed) := by
        simp [List.filter_cons, hc]
      have hcnt : (c :: cs).countP (fun t => t.completed) =
          cs.countP (fun t => t.completed) := by
        simp [List.countP_cons, hc]
      have hle := List.length_filter_le (fun t => !t.completed) cs
      rw [hfil, hcnt, List.length_cons, List.length_cons]
      omega

/-! Round-trip facts for export/import. -/

/-- Decoding a serialized record restores it exactly: a valid date keeps
its millisecond value across `toISOString`/`new Date`, and the `null` form
of an Invalid Date decodes back to an Invalid Date.  (Such a record is
nevertheless dropped before decoding, because `isValidTodo` rejects the
`null`.) -/
lemma decode_encode (t : Todo) : decodeTodo (encodeTodo t) = t := by
  obtain ⟨i, x, c, cd, ud⟩ := t
  cases cd <;> cases ud <;> rfl

/-- Do both timestamps of a record hold valid instants?  True of every
record the manager's own operations create; only `importTodos` can
introduce Invalid Dates. -/
def validDates (t : Todo) : Bool :=
  match t.createdAt, t.updatedAt with
  | .valid _, .valid _ => true
  | _, _ => false

/-- A serialized record passes `isValidTodo` exactly when its timestamps
are valid dates: an Invalid Date serializes to `null`, which then fails the
`typeof createdAt === 'string'` check. -/
lemma isValidTodo_encode (t : Todo) (h : validDates t = true) :
    isValidTodo (encodeTodo t) = true := by
  obtain ⟨i, x, c, cd, ud⟩ := t
  cases cd with
  | invalid => simp [validDates] at h
  | valid a =>
    cases ud with
    | invalid => simp [validDates] at h
    | valid b => rfl

/-- Claim C1: for every input whose trimmed form is non-empty and at most
200 characters, `addTodo` succeeds and returns a record whose text is the
trimmed input with whitespace runs collapsed, whose `completed` is `false`,
whose `createdAt` equals its `updatedAt` (both `now`), and which is appended
at the end of the collection (and persisted). -/
theorem addTodo_valid_spec (st : AppState) (now : Nat)
    (freshId text : String) (h1 : jsTrim text ≠ "")
    (h2 : (jsTrim text).length ≤ 200) :
    addTodo now freshId true text st =
      (.ok ⟨freshId, sanitizeTodoText text, false, .valid now, .valid now⟩,
       { st with
           todos := st.todos ++ [⟨freshId, sanitizeTodoText text, false, .valid now, .valid now⟩],
           stored := st.todos ++ [⟨freshId, sanitizeTodoText text, false, .valid now, .valid now⟩],
           saveCalls := st.saveCalls + 1 }) := by
  have hv : validateTodoText text = .ok () := by
    rw [validateTodoText_ok_iff]
    refine ⟨?_, h2⟩
    intro hnil
    exact h1 (by rw [jsTrim_eq_empty_iff]; exact hnil)
  unfold addTodo
  rw [hv]
  rfl

/-- Witness for C1: a concrete messy input is added with collapsed text. -/
theorem addTodo_valid_spec_witness :
    jsTrim "  buy   milk " ≠ "" ∧ (jsTrim "  buy   milk ").length ≤ 200 ∧
    addTodo 3 "id1" true "  buy   milk " initState =
      (.ok ⟨"id1", sanitizeTodoText "  buy   milk ", false, .valid 3, .valid 3⟩,
       { initState with
           todos := initState.todos ++
             [⟨"id1", sanitizeTodoText "  buy   milk ", false, .valid 3, .valid 3⟩],
           stored := initState.todos ++
             [⟨"id1", sanitizeTodoText "  buy   milk ", false, .valid 3, .valid 3⟩],
           saveCalls := initState.saveCalls + 1 }) :=
  ⟨by decide, by decide,
   addTodo_valid_spec initState 3 "id1" "  buy   milk " (by decide) (by decide)⟩

/-- Claim C5: on empty, whitespace-only, or over-long (post-trim) text,
`addTodo` fails with a `ValidationError` and the whole state — collection,
storage, write count — is unchanged. -/
theorem addTodo_invalid_rejected (st : AppState) (now : Nat)
    (freshId : String) (ok : Bool) (text : String)
    (h : jsTrim text = "" ∨ 200 < (jsTrim text).length) :
    ∃ m, addTodo now freshId ok text st = (.error (.validation m), st) := by
  have hv : ∃ m, validateTodoText text = .error (.validation m) := by
    unfold validateTodoText
    by_cases h1 : text = ""
    · exact ⟨"Todo text is required", by rw [if_pos h1]⟩
    · rw [if_neg h1]
      rcases h with he | hl
      · have h0 : (jsTrim text).length = 0 := by rw [he]; rfl
        exact ⟨"Todo text cannot be empty", by rw [if_pos h0]⟩
      · by_cases h2 : (jsTrim text).length = 0
        · exact ⟨"Todo text cannot be empty", by rw [if_pos h2]⟩
        · rw [if_neg h2]
          exact ⟨"Todo text cannot exceed 200 characters", by rw [if_pos hl]⟩
  obtain ⟨m, hm⟩ := hv
  refine ⟨m, ?_⟩
  unfold addTodo
  rw [hm]

/-- Witness for C5: whitespace-only input is rejected without any change. -/
theorem addTodo_invalid_rejected_witness :
    (jsTrim "   " = "" ∨ 200 < (jsTrim "   ").length) ∧
    ∃ m, addTodo 0 "i" true "   " initState = (.error (.validation m), initState) :=
  ⟨Or.inl (by decide),
   addTodo_invalid_rejected initState 0 "i" true "   " (Or.inl (by decide))⟩

/-- Claim C7: `deleteCompletedTodos` removes exactly the completed records
(keeping the rest in order, as the filtered list), returns how many were
removed, and a second immediate call returns 0. -/
theorem deleteCompleted_spec (st : AppState) :
    (deleteCompletedTodos true st).1 =
      .ok (st.todos.countP (fun t => t.completed)) ∧
    (deleteCompletedTodos true st).2.todos =
      st.todos.filter (fun t => !t.completed) ∧
    (deleteCompletedTodos true (deleteCompletedTodos true st).2).1 = .ok 0 := by
  refine ⟨?_, rfl, ?_⟩
  · have h1 : (deleteCompletedTodos true st).1 =
        .ok (st.todos.length - (st.todos.filter (fun t => !t.completed)).length) :=
      rfl
    rw [h1, length_sub_filter_not]
  · have hidem : (st.todos.filter (fun t => !t.completed)).filter
        (fun t => !t.completed) = st.todos.filter (fun t => !t.completed) :=
      List.filter_eq_self.mpr (fun a ha => (List.mem_filter.mp ha).2)
    have h2 : (deleteCompletedTodos true (deleteCompletedTodos true st).2).1 =
        .ok ((st.todos.filter (fun t => !t.completed)).length -
          ((st.todos.filter (fun t => !t.completed)).filter
            (fun t => !t.completed)).length) := rfl
    rw [h2, hidem, Nat.sub_self]

/-- Claim C10: `clearAll` empties and persists the empty collection while
the current filter selection (seen through `getCurrentFilter`) is
untouched. -/
theorem clearAll_preserves_filter (st : AppState) :
    clearAll true st =
      (.ok (), { st with todos := [], stored := [],
                         saveCalls := st.saveCalls + 1 }) ∧
    getCurrentFilter (clearAll true st).2 = getCurrentFilter st :=
  ⟨rfl, rfl⟩

/-- Claim C3 (amended): for every collection state all of whose records
carry valid timestamps — true of every record the manager's own operations
produce; only `importTodos` can introduce Invalid Dates — importing the
export succeeds, imports every exported record (the returned count is the
collection size), and restores the records exactly: in particular the
sequences of ids, texts and completed flags are unchanged, the timestamps
being re-parsed from their serialized string form.  A record with an
Invalid Date timestamp is instead serialized as `null` and silently dropped
on re-import. -/
theorem export_import_roundTrip (st : AppState)
    (h : ∀ t ∈ st.todos, validDates t = true) :
    importTodos true (exportTodos st) st =
      (.ok st.todos.length,
       { st with stored := st.todos, saveCalls := st.saveCalls + 1 }) := by
  unfold importTodos exportTodos
  have hfil : (st.todos.map encodeTodo).filter isValidTodo =
      st.todos.map encodeTodo :=
    List.filter_eq_self.mpr (fun a ha => by
      obtain ⟨t, ht, rfl⟩ := List.mem_map.mp ha
      exact isValidTodo_encode t (h t ht))
  show commit "Failed to import todos: "
      (((st.todos.map encodeTodo).filter isValidTodo).map decodeTodo).length
      (((st.todos.map encodeTodo).filter isValidTodo).map decodeTodo) true st = _
  rw [hfil, List.map_map]
  have hmap : st.todos.map (decodeTodo ∘ encodeTodo) = st.todos := by
    have hde : decodeTodo ∘ encodeTodo = id := funext decode_encode
    rw [hde, List.map_id]
  rw [hmap, commit_true]

/-- Witness for C3 (amended) on a concrete valid-timestamp collection. -/
theorem export_import_roundTrip_witness :
    (∀ t ∈ (⟨[⟨"a", "x", false, .valid 0, .valid 0⟩], .all, [], .all, 0⟩ :
        AppState).todos, validDates t = true) ∧
    importTodos true
        (exportTodos
          (⟨[⟨"a", "x", false, .valid 0, .valid 0⟩], .all, [], .all, 0⟩ :
            AppState))
        (⟨[⟨"a", "x", false, .valid 0, .valid 0⟩], .all, [], .all, 0⟩ :
          AppState) =
      (.ok 1,
       { (⟨[⟨"a", "x", false, .valid 0, .valid 0⟩], .all, [], .all, 0⟩ :
           AppState) with
           stored := [⟨"a", "x", false, .valid 0, .valid 0⟩],
           saveCalls := 1 }) :=
  ⟨by decide,
   export_import_roundTrip
     (⟨[⟨"a", "x", false, .valid 0, .valid 0⟩], .all, [], .all, 0⟩ : AppState)
     (by decide)⟩

/-- An import payload whose single entry has type-correct fields but an
unparseable date string, on which `new Date` yields the Invalid Date. -/
def invalidDateImportJson : JVal :=
  .arr
    [.obj [("id", .str "a"), ("text", .str "x"), ("completed", .jbool false),
           ("createdAt", .str "garbage"), ("updatedAt", .str "garbage")]]

/-- Claim C3 counterexample: a reachable collection — one `importTodos`
call whose entry carries an unparseable date string — holds one record with
an Invalid Date.  Exporting serializes that timestamp as `null`
(`Date.prototype.toJSON`), re-importing then rejects the entry (`typeof
null` is not string), so the round trip imports 0 of the 1 exported records
and loses the record: the sequence of ids, texts and completed flags is not
restored. -/
theorem export_import_roundTrip_cex :
    Reach (applyOp (.importT invalidDateImportJson) true initState).2 ∧
    (applyOp (.importT invalidDateImportJson) true initState).2.todos.length
      = 1 ∧
    (importTodos true
      (exportTodos (applyOp (.importT invalidDateImportJson) true initState).2)
      (applyOp (.importT invalidDateImportJson) true initState).2).1 =
      .ok 0 ∧
    (importTodos true
      (exportTodos (applyOp (.importT invalidDateImportJson) true initState).2)
      (applyOp (.importT invalidDateImportJson) true initState).2).2.todos =
      [] :=
  ⟨Reach.step initState (.importT invalidDateImportJson) true Reach.init,
   rfl, rfl, rfl⟩

/-- Claim C2 (amended): in every state reachable from the empty collection
by operations other than `importTodos` — with `generateId()` returning a
fresh id at each add and the clock never behind an existing record's
creation time, as the specification presumes — the ids are pairwise
distinct, every text is non-empty and at most 200 characters after
trimming, and `updatedAt >= createdAt` for every record. -/
theorem reachM_invariant (st : AppState) (h : ReachM st) : StateInv st := by
  induction h with
  | init =>
    exact ⟨List.nodup_nil, fun t ht => absurd ht (List.not_mem_nil t)⟩
  | step st o ok henv hr ih =>
    cases o with
    | add now id text => exact addTodo_snd_inv ih henv
    | update now id upd => exact updateTodo_snd_inv ih henv
    | toggle now id => exact toggleTodo_snd_inv ih henv
    | delete id => exact deleteTodo_snd_inv ih
    | deleteCompleted => exact deleteCompletedTodos_snd_inv ih
    | clearAllOp => exact clearAll_snd_inv
    | importT j => exact henv.elim
    | setFilterOp f => exact setFilter_snd_inv ih

/-- Witness for C2 (amended): the invariants hold in the concrete state
reached by one valid add. -/
theorem reachM_invariant_witness :
    StateInv (applyOp (.add 5 "a1" "buy milk") true initState).2 :=
  reachM_invariant _
    (ReachM.step initState (.add 5 "a1" "buy milk") true
      (fun t ht => absurd ht (List.not_mem_nil t)) ReachM.init)

/-- An import payload whose entries all pass `isValidTodo` (every field has
the right type) yet carry an empty text, a duplicated id, and
`updatedAt < createdAt`. -/
def badImportJson : JVal :=
  .arr
    [.obj [("id", .str "a"), ("text", .str ""), ("completed", .jbool false),
           ("createdAt", .dateStr 100), ("updatedAt", .dateStr 0)],
     .obj [("id", .str "a"), ("text", .str "x"), ("completed", .jbool false),
           ("createdAt", .dateStr 0), ("updatedAt", .dateStr 0)]]

/-- Claim C2 counterexample: a state reachable from the empty collection by
one `importTodos` call violates all three invariants — `isValidTodo` checks
only field types, so duplicate ids, empty texts and `updatedAt < createdAt`
pass the import filter. -/
theorem import_breaks_invariants_cex :
    Reach (applyOp (.importT badImportJson) true initState).2 ∧
    ¬ StateInv (applyOp (.importT badImportJson) true initState).2 :=
  ⟨Reach.step initState (.importT badImportJson) true Reach.init, by decide⟩

/-! Behaviour of each mutating operation when the persistence write fails. -/

/-- A fallible value known to be an error maps to the same error. -/
lemma except_map_error {α β : Type} (f : α → β) {x : Except TLError α}
    {e : TLError} (h : x = .error e) : x.map f = .error e := by
  rw [h]; rfl

/-- `addTodo` under a failing write: generic error, same in-memory list as a
successful run, storage untouched. -/
lemma addTodo_no_rollback (now : Nat) (freshId text : String) (st : AppState)
    (hsave : st.saveCalls < (addTodo now freshId true text st).2.saveCalls) :
    (∃ m, (addTodo now freshId false text st).1 = .error (.generic m)) ∧
    (addTodo now freshId false text st).2.todos =
      (addTodo now freshId true text st).2.todos ∧
    (addTodo now freshId false text st).2.stored = st.stored := by
  cases hv : validateTodoText text with
  | error e =>
    have ht : (addTodo now freshId true text st).2 = st := by
      unfold addTodo; rw [hv]
    rw [ht] at hsave
    exact absurd hsave (lt_irrefl _)
  | ok u =>
    have hoks : ∀ ok, addTodo now freshId ok text st =
        commit "Failed to add todo: "
          (⟨freshId, sanitizeTodoText text, false, .valid now, .valid now⟩ : Todo)
          (st.todos ++ [⟨freshId, sanitizeTodoText text, false, .valid now, .valid now⟩])
          ok st := by
      intro ok; unfold addTodo; rw [hv]
    refine ⟨⟨"Failed to add todo: " ++ saveFailMsg, ?_⟩, ?_, ?_⟩
    · rw [hoks false, commit_false]
    · rw [hoks false, hoks true, commit_false, commit_true]
    · rw [hoks false, commit_false]


/-- `updateTodo` under a failing write, when it reaches the write. -/
lemma updateTodo_no_rollback (now : Nat) (id : String) (upd : TodoUpdate)
    (st : AppState)
    (hsave : st.saveCalls < (updateTodo now true id upd st).2.saveCalls) :
    (∃ m, (updateTodo now false id upd st).1 = .error (.generic m)) ∧
    (updateTodo now false id upd st).2.todos =
      (updateTodo now true id upd st).2.todos ∧
    (updateTodo now false id upd st).2.stored = st.stored := by
  cases h1 : validateId id with
  | error e =>
    have ht : (updateTodo now true id upd st).2 = st := by
      unfold updateTodo; simp only [h1]
    rw [ht] at hsave
    exact absurd hsave (lt_irrefl _)
  | ok u =>
    cases h2 : st.todos.findIdx? (fun t => t.id == id) with
    | none =>
      have ht : (updateTodo now true id upd st).2 = st := by
        unfold updateTodo; simp only [h1, h2]
      rw [ht] at hsave
      exact absurd hsave (lt_irrefl _)
    | some i =>
      cases h3 : st.todos.get? i with
      | none =>
        have ht : (updateTodo now true id upd st).2 = st := by
          unfold updateTodo; simp only [h1, h2, h3]
        rw [ht] at hsave
        exact absurd hsave (lt_irrefl _)
      | some todo =>
        cases h4 : (match upd.text? with
                    | some tx => validateTodoText tx
                    | none => Except.ok ()) with
        | error e =>
          have ht : (updateTodo now true id upd st).2 = st := by
            unfold updateTodo; simp only [h1, h2, h3, h4]
          rw [ht] at hsave
          exact absurd hsave (lt_irrefl _)
        | ok u2 =>
          have hoks : ∀ ok, updateTodo now ok id upd st =
              commit "Failed to update todo: "
                (some ⟨todo.id,
                       (match upd.text? with
                        | some tx => sanitizeTodoText tx
                        | none => todo.text),
                       upd.completed?.getD todo.completed,
                       todo.createdAt, .valid now⟩)
                (st.todos.set i
                  ⟨todo.id,
                   (match upd.text? with
                    | some tx => sanitizeTodoText tx
                    | none => todo.text),
                   upd.completed?.getD todo.completed,
                   todo.createdAt, .valid now⟩)
                ok st := by
            intro ok; unfold updateTodo; simp only [h1, h2, h3, h4]
          refine ⟨⟨"Failed to update todo: " ++ saveFailMsg, ?_⟩, ?_, ?_⟩
          · rw [hoks false, commit_false]
          · rw [hoks false, hoks true, commit_false, commit_true]
          · rw [hoks false, commit_false]

/-- The post-state of `toggleTodo` is the post-state of the `updateTodo` it
delegates to, once the record was found. -/
lemma toggleTodo_snd_eq (now : Nat) (ok : Bool) (id : String) (st : AppState)
    {todo : Todo} (h1 : validateId id = .ok ())
    (h2 : st.todos.find? (fun t => t.id == id) = some todo) :
    (toggleTodo now ok id st).2 =
      (updateTodo now ok id ⟨none, some (!todo.completed)⟩ st).2 := by
  unfold toggleTodo
  simp only [h1, h2]
  rcases hres : updateTodo now ok id ⟨none, some (!todo.completed)⟩ st
    with ⟨r, st2⟩
  cases r with
  | ok v => rfl
  | error e => cases e <;> rfl

/-- `toggleTodo` under a failing write, when it reaches the write. -/
lemma toggleTodo_no_rollback (now : Nat) (id : String) (st : AppState)
    (hsave : st.saveCalls < (toggleTodo now true id st).2.saveCalls) :
    (∃ m, (toggleTodo now false id st).1 = .error (.generic m)) ∧
    (toggleTodo now false id st).2.todos =
      (toggleTodo now true id st).2.todos ∧
    (toggleTodo now false id st).2.stored = st.stored := by
  cases h1 : validateId id with
  | error e =>
    have ht : (toggleTodo now true id st).2 = st := by
      unfold toggleTodo; simp only [h1]
    rw [ht] at hsave
    exact absurd hsave (lt_irrefl _)
  | ok u =>
    obtain rfl : u = () := rfl
    cases h2 : st.todos.find? (fun t => t.id == id) with
    | none =>
      have ht : (toggleTodo now true id st).2 = st := by
        unfold toggleTodo; simp only [h1, h2]
      rw [ht] at hsave
      exact absurd hsave (lt_irrefl _)
    | some todo =>
      have hsave' : st.saveCalls <
          (updateTodo now true id ⟨none, some (!todo.completed)⟩ st).2.saveCalls := by
        rw [← toggleTodo_snd_eq now true id st h1 h2]
        exact hsave
      obtain ⟨⟨m, hm⟩, htd, hst⟩ :=
        updateTodo_no_rollback now id ⟨none, some (!todo.completed)⟩ st hsave'
      rcases hres : updateTodo now false id ⟨none, some (!todo.completed)⟩ st
        with ⟨r, st2⟩
      rw [hres] at hm htd hst
      have hr : r = .error (.generic m) := hm
      subst hr
      have hfalse : toggleTodo now false id st =
          (.error (.generic ("Failed to toggle todo: " ++ m)), st2) := by
        unfold toggleTodo
        simp only [h1, h2, hres]
        rfl
      refine ⟨⟨"Failed to toggle todo: " ++ m, by rw [hfalse]⟩, ?_, ?_⟩
      · rw [hfalse, toggleTodo_snd_eq now true id st h1 h2]
        exact htd
      · rw [hfalse]
        exact hst

/-- `deleteTodo` under a failing write, when it reaches the write. -/
lemma deleteTodo_no_rollback (id : String) (st : AppState)
    (hsave : st.saveCalls < (deleteTodo true id st).2.saveCalls) :
    (∃ m, (deleteTodo false id st).1 = .error (.generic m)) ∧
    (deleteTodo false id st).2.todos = (deleteTodo true id st).2.todos ∧
    (deleteTodo false id st).2.stored = st.stored := by
  cases h1 : validateId id with
  | error e =>
    have ht : (deleteTodo true id st).2 = st := by
      unfold deleteTodo; simp only [h1]
    rw [ht] at hsave
    exact absurd hsave (lt_irrefl _)
  | ok u =>
    cases h2 : st.todos.findIdx? (fun t => t.id == id) with
    | none =>
      have ht : (deleteTodo true id st).2 = st := by
        unfold deleteTodo; simp only [h1, h2]
      rw [ht] at hsave
      exact absurd hsave (lt_irrefl _)
    | some i =>
      have hoks : ∀ ok, deleteTodo ok id st =
          commit "Failed to delete todo: " true (st.todos.eraseIdx i) ok st := by
        intro ok; unfold deleteTodo; simp only [h1, h2]
      refine ⟨⟨"Failed to delete todo: " ++ saveFailMsg, ?_⟩, ?_, ?_⟩
      · rw [hoks false, commit_false]
      · rw [hoks false, hoks true, commit_false, commit_true]
      · rw [hoks false, commit_false]

/-- `deleteCompletedTodos` under a failing write (it always writes). -/
lemma deleteCompletedTodos_no_rollback (st : AppState) :
    (∃ m, (deleteCompletedTodos false st).1 = .error (.generic m)) ∧
    (deleteCompletedTodos false st).2.todos =
      (deleteCompletedTodos true st).2.todos ∧
    (deleteCompletedTodos false st).2.stored = st.stored := by
  have hoks : ∀ ok, deleteCompletedTodos ok st =
      commit "Failed to delete completed todos: "
        (st.todos.length - (st.todos.filter (fun t => !t.completed)).length)
        (st.todos.filter (fun t => !t.completed)) ok st := fun _ => rfl
  refine ⟨⟨"Failed to delete completed todos: " ++ saveFailMsg, ?_⟩, ?_, ?_⟩
  · rw [hoks false, commit_false]
  · rw [hoks false, hoks true, commit_false, commit_true]
  · rw [hoks false, commit_false]

/-- `clearAll` under a failing write (it always writes). -/
lemma clearAll_no_rollback (st : AppState) :
    (∃ m, (clearAll false st).1 = .error (.generic m)) ∧
    (clearAll false st).2.todos = (clearAll true st).2.todos ∧
    (clearAll false st).2.stored = st.stored := by
  refine ⟨⟨"Failed to clear all todos: " ++ saveFailMsg, ?_⟩, ?_, ?_⟩ <;> rfl

/-- `importTodos` under a failing write, when the payload is an array (the
only case that reaches the write). -/
lemma importTodos_no_rollback (items : List JVal) (st : AppState) :
    (∃ m, (importTodos false (.arr items) st).1 = .error (.generic m)) ∧
    (importTodos false (.arr items) st).2.todos =
      (importTodos true (.arr items) st).2.todos ∧
    (importTodos false (.arr items) st).2.stored = st.stored := by
  have hoks : ∀ ok, importTodos ok (.arr items) st =
      commit "Failed to import todos: "
        ((items.filter isValidTodo).map decodeTodo).length
        ((items.filter isValidTodo).map decodeTodo) ok st := fun _ => rfl
  refine ⟨⟨"Failed to import todos: " ++ saveFailMsg, ?_⟩, ?_, ?_⟩
  · rw [hoks false, commit_false]
  · rw [hoks false, hoks true, commit_false, commit_true]
  · rw [hoks false, commit_false]

/-- Claim C4 (amended): for every mutating operation that reaches its
persistence write (addTodo, updateTodo, toggleTodo, deleteTodo,
deleteCompletedTodos, clearAll, importTodos — witnessed by the write
counter increasing on a successful run), a write failure surfaces to the
caller as a generic error wrapping the storage failure — the `StorageError`
itself is caught and re-wrapped by each operation — while the in-memory
mutation has already been applied exactly as on a successful run and the
stored collection is untouched, so memory and storage diverge whenever the
mutation changed the collection. -/
theorem save_failure_no_rollback (st : AppState) (o : Op)
    (hsave : st.saveCalls < ((applyOp o true st).2).saveCalls) :
    (∃ m, (applyOp o false st).1 = .error (.generic m)) ∧
    ((applyOp o false st).2).todos = ((applyOp o true st).2).todos ∧
    ((applyOp o false st).2).stored = st.stored := by
  cases o with
  | add now freshId text =>
    obtain ⟨⟨m, hm⟩, h2, h3⟩ := addTodo_no_rollback now freshId text st hsave
    exact ⟨⟨m, except_map_error Payload.todoP hm⟩, h2, h3⟩
  | update now id upd =>
    obtain ⟨⟨m, hm⟩, h2, h3⟩ := updateTodo_no_rollback now id upd st hsave
    exact ⟨⟨m, except_map_error Payload.optP hm⟩, h2, h3⟩
  | toggle now id =>
    obtain ⟨⟨m, hm⟩, h2, h3⟩ := toggleTodo_no_rollback now id st hsave
    exact ⟨⟨m, except_map_error Payload.optP hm⟩, h2, h3⟩
  | delete id =>
    obtain ⟨⟨m, hm⟩, h2, h3⟩ := deleteTodo_no_rollback id st hsave
    exact ⟨⟨m, except_map_error Payload.boolP hm⟩, h2, h3⟩
  | deleteCompleted =>
    obtain ⟨⟨m, hm⟩, h2, h3⟩ := deleteCompletedTodos_no_rollback st
    exact ⟨⟨m, except_map_error Payload.natP hm⟩, h2, h3⟩
  | clearAllOp =>
    obtain ⟨⟨m, hm⟩, h2, h3⟩ := clearAll_no_rollback st
    exact ⟨⟨m, except_map_error (fun _ => Payload.unitP) hm⟩, h2, h3⟩
  | importT j =>
    cases j with
    | arr items =>
      obtain ⟨⟨m, hm⟩, h2, h3⟩ := importTodos_no_rollback items st
      exact ⟨⟨m, except_map_error Payload.natP hm⟩, h2, h3⟩
    | str s => exact absurd hsave (lt_irrefl _)
    | dateStr ms => exact absurd hsave (lt_irrefl _)
    | jbool b => exact absurd hsave (lt_irrefl _)
    | jnum n => exact absurd hsave (lt_irrefl _)
    | jnull => exact absurd hsave (lt_irrefl _)
    | obj fs => exact absurd hsave (lt_irrefl _)
  | setFilterOp f => exact absurd hsave (lt_irrefl _)

/-- Witness for C4 (amended) at a concrete add whose write fails. -/
theorem save_failure_no_rollback_witness :
    initState.saveCalls <
      ((applyOp (.add 0 "i1" "hi") true initState).2).saveCalls ∧
    ((∃ m, (applyOp (.add 0 "i1" "hi") false initState).1 =
        .error (.generic m)) ∧
     ((applyOp (.add 0 "i1" "hi") false initState).2).todos =
       ((applyOp (.add 0 "i1" "hi") true initState).2).todos ∧
     ((applyOp (.add 0 "i1" "hi") false initState).2).stored =
       initState.stored) :=
  ⟨by decide, save_failure_no_rollback initState (.add 0 "i1" "hi") (by decide)⟩

/-- Is the outcome of an operation a raised `StorageError`? -/
def raisedStorage {α : Type} : Except TLError α → Bool
  | .error (.storage _) => true
  | _ => false

/-- Claim C4 counterexample: when the write fails during `addTodo`, the
error reaching the caller is NOT a `StorageError` — the operation's catch
block wraps it into a generic `Error` — even though the in-memory mutation
was applied and storage was left untouched. -/
theorem storage_error_kind_cex :
    (addTodo 0 "i1" false "hi" initState).1 =
      .error (.generic ("Failed to add todo: " ++ saveFailMsg)) ∧
    raisedStorage (addTodo 0 "i1" false "hi" initState).1 = false ∧
    (addTodo 0 "i1" false "hi" initState).2.todos =
      [⟨"i1", "hi", false, .valid 0, .valid 0⟩] ∧
    (addTodo 0 "i1" false "hi" initState).2.stored = [] :=
  ⟨rfl, rfl, by decide, by decide⟩

/-- `updateTodo` with only a `completed` flag, on a record found at index
`i`: the record is rebuilt with the new flag and `updatedAt = now` and
written back in place. -/
lemma updateTodo_toggle_eq (now : Nat) (ok : Bool) (id : String)
    (st : AppState) (todo : Todo) (i : Nat) (c : Bool)
    (h1 : validateId id = .ok ())
    (hidx : st.todos.findIdx? (fun t => t.id == id) = some i)
    (hget : st.todos.get? i = some todo) :
    updateTodo now ok id ⟨none, some c⟩ st =
      commit "Failed to update todo: "
        (some ⟨todo.id, todo.text, c, todo.createdAt, .valid now⟩)
        (st.todos.set i ⟨todo.id, todo.text, c, todo.createdAt, .valid now⟩)
        ok st := by
  unfold updateTodo
  simp only [h1, hidx, hget]
  rfl

/-- Claim C6 (amended): for every id that is non-empty after trimming and
is the id of a (first-matching) record in the collection, `toggleTodo`
flips that record's completed flag and stamps `updatedAt = now >= ` the
prior `updatedAt` (assuming the clock has not gone backwards); toggling the
same id again returns the flag to its original value. -/
theorem toggle_flips_and_involutive (st : AppState) (now now2 : Nat)
    (ok ok2 : Bool) (id : String) (t : Todo)
    (hid : jsTrim id ≠ "")
    (hfind : st.todos.find? (fun x => x.id == id) = some t)
    (hclock : JsDate.le t.updatedAt (.valid now)) :
    ∃ u, (toggleTodo now ok id st).2.todos.find? (fun x => x.id == id) =
        some u ∧
      u.completed = !t.completed ∧ JsDate.le t.updatedAt u.updatedAt ∧
      ∃ v, (toggleTodo now2 ok2 id
            (toggleTodo now ok id st).2).2.todos.find?
          (fun x => x.id == id) = some v ∧ v.completed = t.completed := by
  have h1 : validateId id = Except.ok () := (validateId_ok_iff id).mpr hid
  have hpt := List.find?_some (p := fun x : Todo => x.id == id) hfind
  obtain ⟨i, hidx, hget, hset⟩ :=
    find?_findIdx?_set (fun x => x.id == id) st.todos t hfind
  have htd1 : (toggleTodo now ok id st).2.todos =
      st.todos.set i ⟨t.id, t.text, !t.completed, t.createdAt, .valid now⟩ := by
    rw [toggleTodo_snd_eq now ok id st h1 hfind,
        updateTodo_toggle_eq now ok id st t i (!t.completed) h1 hidx hget,
        commit_todos]
  have hfind1 : (toggleTodo now ok id st).2.todos.find?
      (fun x => x.id == id) =
        some ⟨t.id, t.text, !t.completed, t.createdAt, .valid now⟩ := by
    rw [htd1]
    exact hset _ hpt
  refine ⟨⟨t.id, t.text, !t.completed, t.createdAt, .valid now⟩, hfind1, rfl,
    hclock, ?_⟩
  obtain ⟨i2, hidx2, hget2, hset2⟩ :=
    find?_findIdx?_set (fun x => x.id == id) (toggleTodo now ok id st).2.todos
      _ hfind1
  have htd2 : (toggleTodo now2 ok2 id (toggleTodo now ok id st).2).2.todos =
      (toggleTodo now ok id st).2.todos.set i2
        ⟨t.id, t.text, !!t.completed, t.createdAt, .valid now2⟩ := by
    rw [toggleTodo_snd_eq now2 ok2 id _ h1 hfind1,
        updateTodo_toggle_eq now2 ok2 id _ _ i2 _ h1 hidx2 hget2,
        commit_todos]
  refine ⟨⟨t.id, t.text, !!t.completed, t.createdAt, .valid now2⟩, ?_, ?_⟩
  · rw [htd2]
    exact hset2 _ hpt
  · exact Bool.not_not t.completed

/-- Witness for C6 (amended) on a concrete one-record collection. -/
theorem toggle_flips_and_involutive_witness :
    jsTrim "a" ≠ "" ∧
    (∃ u, (toggleTodo 1 true "a"
          (⟨[⟨"a", "x", false, .valid 0, .valid 0⟩], .all, [], .all, 0⟩ : AppState)).2.todos.find?
        (fun x => x.id == "a") = some u ∧
      u.completed = !(false : Bool) ∧ JsDate.le (.valid 0) u.updatedAt ∧
      ∃ v, (toggleTodo 2 true "a"
            (toggleTodo 1 true "a"
              (⟨[⟨"a", "x", false, .valid 0, .valid 0⟩], .all, [], .all, 0⟩ : AppState)).2).2.todos.find?
          (fun x => x.id == "a") = some v ∧ v.completed = false) :=
  ⟨by decide,
   toggle_flips_and_involutive
     (⟨[⟨"a", "x", false, .valid 0, .valid 0⟩], .all, [], .all, 0⟩ : AppState)
     1 2 true true "a" ⟨"a", "x", false, .valid 0, .valid 0⟩
     (by decide) (by decide) (by decide)⟩

/-- Claim C6 counterexample: a record with the whitespace-only id " " —
reachable via `importTodos`, whose validation accepts any string id — is
present in the collection, yet `toggleTodo` on its id raises a
`ValidationError` and flips nothing. -/
theorem toggle_blank_id_cex :
    (⟨[⟨" ", "x", false, .valid 0, .valid 0⟩], .all, [], .all, 0⟩ : AppState).todos.find?
        (fun x => x.id == " ") = some ⟨" ", "x", false, .valid 0, .valid 0⟩ ∧
    toggleTodo 1 true " "
        (⟨[⟨" ", "x", false, .valid 0, .valid 0⟩], .all, [], .all, 0⟩ : AppState) =
      (.error (.validation "Todo ID cannot be empty"),
       ⟨[⟨" ", "x", false, .valid 0, .valid 0⟩], .all, [], .all, 0⟩) :=
  ⟨rfl, rfl⟩

/-- Claim C8 (amended): for every id that is non-empty after trimming: if
no record has that id, `deleteTodo` returns `false` and the state is
unchanged; if a record has it (at index `i`), `deleteTodo` returns `true`,
removes exactly that record in place (`eraseIdx`, preserving the others and
their order), decreasing the count by exactly 1, and persists. -/
theorem delete_found_or_not (st : AppState) (id : String)
    (hid : jsTrim id ≠ "") :
    ((∀ t ∈ st.todos, t.id ≠ id) →
      ∀ ok, deleteTodo ok id st = (.ok false, st)) ∧
    (∀ i, st.todos.findIdx? (fun t => t.id == id) = some i →
      deleteTodo true id st =
        (.ok true, { st with todos := st.todos.eraseIdx i,
                             stored := st.todos.eraseIdx i,
                             saveCalls := st.saveCalls + 1 }) ∧
      (st.todos.eraseIdx i).length + 1 = st.todos.length) := by
  have h1 : validateId id = Except.ok () := (validateId_ok_iff id).mpr hid
  constructor
  · intro hnone ok
    have h2 : st.todos.findIdx? (fun t => t.id == id) = none := by
      rw [List.findIdx?_eq_none_iff]
      intro x hx
      exact beq_eq_false_iff_ne.mpr (hnone x hx)
    unfold deleteTodo
    simp only [h1, h2]
  · intro i hidx
    obtain ⟨t, hget, hpt⟩ := findIdx?_get? _ st.todos i hidx
    have hi : i < st.todos.length := by
      obtain ⟨hlt, -⟩ := List.get?_eq_some.mp hget
      exact hlt
    constructor
    · unfold deleteTodo
      simp only [h1, hidx]
      rfl
    · rw [List.length_eraseIdx, if_pos hi]
      omega

/-- Witness for C8 (amended): unknown id returns false and changes nothing;
known id returns true and removes the record. -/
theorem delete_found_or_not_witness :
    deleteTodo true "b"
        (⟨[⟨"a", "x", false, .valid 0, .valid 0⟩], .all, [], .all, 0⟩ : AppState) =
      (.ok false, ⟨[⟨"a", "x", false, .valid 0, .valid 0⟩], .all, [], .all, 0⟩) ∧
    deleteTodo true "a"
        (⟨[⟨"a", "x", false, .valid 0, .valid 0⟩], .all, [], .all, 0⟩ : AppState) =
      (.ok true, ⟨[], .all, [], .all, 1⟩) :=
  ⟨(delete_found_or_not
      (⟨[⟨"a", "x", false, .valid 0, .valid 0⟩], .all, [], .all, 0⟩ : AppState) "b"
      (by decide)).1 (by decide) true,
   ((delete_found_or_not
      (⟨[⟨"a", "x", false, .valid 0, .valid 0⟩], .all, [], .all, 0⟩ : AppState) "a"
      (by decide)).2 0 (by decide)).1⟩

/-- Claim C8 counterexample: the id " " is non-empty and matches no record
of the empty collection, yet `deleteTodo` raises a `ValidationError`
rather than returning `false`. -/
theorem delete_blank_id_cex :
    (" " : String) ≠ "" ∧
    deleteTodo true " " initState =
      (.error (.validation "Todo ID cannot be empty"), initState) ∧
    (deleteTodo true " " initState).1 ≠ .ok false := by
  refine ⟨by decide, rfl, ?_⟩
  intro h
  have h1 : (deleteTodo true " " initState).1 =
      .error (.validation "Todo ID cannot be empty") := rfl
  rw [h1] at h
  simp at h

/-- Claim C9 (amended): for every id that is non-empty after trimming and
belongs to a (first-matching) record, `updateTodo` with an empty update —
no text, no completed flag — succeeds, keeps id, text, completed and
`createdAt` unchanged, yet still stamps `updatedAt = now` and persists the
collection. -/
theorem update_empty_refreshes (st : AppState) (now : Nat) (id : String)
    (t : Todo) (hid : jsTrim id ≠ "")
    (hfind : st.todos.find? (fun x => x.id == id) = some t) :
    ∃ i, st.todos.findIdx? (fun x => x.id == id) = some i ∧
      updateTodo now true id ⟨none, none⟩ st =
        (.ok (some ⟨t.id, t.text, t.completed, t.createdAt, .valid now⟩),
         { st with
             todos := st.todos.set i ⟨t.id, t.text, t.completed, t.createdAt, .valid now⟩,
             stored := st.todos.set i ⟨t.id, t.text, t.completed, t.createdAt, .valid now⟩,
             saveCalls := st.saveCalls + 1 }) := by
  have h1 : validateId id = Except.ok () := (validateId_ok_iff id).mpr hid
  obtain ⟨i, hidx, hget, -⟩ :=
    find?_findIdx?_set (fun x => x.id == id) st.todos t hfind
  refine ⟨i, hidx, ?_⟩
  unfold updateTodo
  simp only [h1, hidx, hget]
  rfl

/-- Witness for C9 (amended) on a concrete one-record collection. -/
theorem update_empty_refreshes_witness :
    jsTrim "a" ≠ "" ∧
    ∃ i, (⟨[⟨"a", "x", true, .valid 0, .valid 0⟩], .all, [], .all, 0⟩ : AppState).todos.findIdx?
        (fun x => x.id == "a") = some i ∧
      updateTodo 7 true "a" ⟨none, none⟩
          (⟨[⟨"a", "x", true, .valid 0, .valid 0⟩], .all, [], .all, 0⟩ : AppState) =
        (.ok (some ⟨"a", "x", true, .valid 0, .valid 7⟩),
         { (⟨[⟨"a", "x", true, .valid 0, .valid 0⟩], .all, [], .all, 0⟩ : AppState) with
             todos := [⟨"a", "x", true, .valid 0, .valid 0⟩].set i ⟨"a", "x", true, .valid 0, .valid 7⟩,
             stored := [⟨"a", "x", true, .valid 0, .valid 0⟩].set i ⟨"a", "x", true, .valid 0, .valid 7⟩,
             saveCalls := 1 }) :=
  ⟨by decide,
   update_empty_refreshes
     (⟨[⟨"a", "x", true, .valid 0, .valid 0⟩], .all, [], .all, 0⟩ : AppState)
     7 "a" ⟨"a", "x", true, .valid 0, .valid 0⟩ (by decide) (by decide)⟩

/-- Claim C9 counterexample: a record with the whitespace-only id " " is
present, yet `updateTodo` with the empty update raises a `ValidationError`
instead of succeeding, and nothing is persisted. -/
theorem update_blank_id_cex :
    (⟨[⟨" ", "x", false, .valid 0, .valid 0⟩], .all, [], .all, 0⟩ : AppState).todos.find?
        (fun x => x.id == " ") = some ⟨" ", "x", false, .valid 0, .valid 0⟩ ∧
    updateTodo 1 true " " ⟨none, none⟩
        (⟨[⟨" ", "x", false, .valid 0, .valid 0⟩], .all, [], .all, 0⟩ : AppState) =
      (.error (.validation "Todo ID cannot be empty"),
       ⟨[⟨" ", "x", false, .valid 0, .valid 0⟩], .all, [], .all, 0⟩) :=
  ⟨rfl, rfl⟩
